import Mathlib

/-!
Shallow embedding of the `Display` LED-matrix driver (`src/display.rs`) of the
sensehat-rs repository, together with proofs about its colour codec, its
orientation mapping and the state effects of its public operations.

Machine integers (`u8`, `usize`) are modelled as `Nat`; wherever the Rust
code can overflow an 8-bit value (the `<<` operator on `u8` discards any
bits shifted above bit 7) the model takes the result `% 256` explicitly.
The Rust byte arrays `[u8; 128]` and `[u8; 32]` are modelled as functions
out of `Fin 128` / `Fin 32`, and the pixel grid `[Pixel; 64]` as a function
out of `Fin 64`.
-/

namespace SenseHat

/-- Rust `pub type Pixel = (u8, u8, u8)`: a rgb888 colour `(r, g, b)`. -/
abbrev Pixel := Nat × Nat × Nat

/-- The `Orientation` enum of `src/display.rs`: 0°, 90°, 180°, 270°. -/
inductive Orientation where
  | Deg0
  | Deg90
  | Deg180
  | Deg270
  deriving DecidableEq

/-- The `DisplayError` enum of `src/display.rs` (the data-carrying
device-discovery variants are irrelevant to the modelled operations and
appear without their payloads). -/
inductive DisplayError where
  | OutOfBounds
  | InvalidGamma
  | MissingFramebuffer
  | GlobError
  | PatternError
  | FramebufferError
  deriving DecidableEq

/-- Rust `fn convert_from_pixel(p: Pixel) -> (u8, u8)`:
```rust
let r = p.0 & 0xF8;
let g = p.1 >> 2;
let b = p.2 >> 3;
(r | (g >> 3), (g << 5) | b)
```
In Rust `g << 5` is a `u8` shift, so only the low 8 bits survive: hence
the `% 256`.  The result is the `(msb, lsb)` pair of the rgb565 word. -/
def convert_from_pixel (p : Pixel) : Nat × Nat :=
  let r := p.1 &&& 0xF8
  let g := p.2.1 >>> 2
  let b := p.2.2 >>> 3
  (r ||| (g >>> 3), ((g <<< 5) % 256) ||| b)

/-- Rust `fn convert_to_pixel(msb: u8, lsb: u8) -> Pixel`:
```rust
let r = msb & 0xF8;
let g = ((msb & 0x07) << 3) | (lsb & 0xE0);
let b = lsb & 0x1F;
(r, g << 2, b << 3)
```
Here `g << 2` is again a `u8` shift, hence the `% 256` (`g` can hold
bits 7..3, so two of its bits are discarded by the shift); `b << 3` and
the other fields never exceed 8 bits. -/
def convert_to_pixel (msb lsb : Nat) : Pixel :=
  let r := msb &&& 0xF8
  let g := ((msb &&& 0x07) <<< 3) ||| (lsb &&& 0xE0)
  let b := lsb &&& 0x1F
  (r, (g <<< 2) % 256, b <<< 3)

/-- Modelled from the spec (reference definition for the refinement claim):
`Pack(r,g,b) → u16` is `r5 = r >> 3; g6 = g >> 2; b5 = b >> 3;
result = (r5 << 11) | (g6 << 5) | b5`. -/
def packWord (p : Pixel) : Nat :=
  ((p.1 >>> 3) <<< 11) ||| ((p.2.1 >>> 2) <<< 5) ||| (p.2.2 >>> 3)

/-- Modelled from the spec (reference definition for the refinement claim):
`Unpack` extracts `msb = value >> 8`, `lsb = value & 0xFF` and returns
`r = msb & 0xF8`, `g = (((msb & 0x07) << 3) | (lsb & 0xE0)) << 2`,
`b = (lsb & 0x1F) << 3`, "each channel an 8-bit value" (hence the `% 256`
on the one formula whose shift can carry past bit 7). -/
def specUnpack (msb lsb : Nat) : Pixel :=
  (msb &&& 0xF8, ((((msb &&& 0x07) <<< 3) ||| (lsb &&& 0xE0)) <<< 2) % 256,
    (lsb &&& 0x1F) <<< 3)

/-- One round trip of a pixel through the codec: pack to `(msb, lsb)`,
then unpack; the spec's `Unpack(Pack(p))`. -/
def roundtrip (p : Pixel) : Pixel :=
  let ml := convert_from_pixel p
  convert_to_pixel ml.1 ml.2

/-- The green channel produced by `convert_to_pixel` as a function of
`msb & 0x07` and `lsb >> 5` (the only parts of the inputs it reads). -/
def gchan (c d : Nat) : Nat :=
  (((c <<< 3) ||| (d <<< 5)) <<< 2) % 256

/-- The display state: the 128-byte `frame` mirror and the `orientation`
field of the Rust `Display` struct, plus the two pieces of device state the
code writes through the framebuffer handle — `fb`, the last byte buffer
transmitted with `write_frame`, and `gammaState`, the device-held gamma
table set with the gamma ioctl. -/
structure Display where
  frame : Fin 128 → Nat
  orientation : Orientation
  fb : Fin 128 → Nat
  gammaState : Fin 32 → Nat

/-- Read byte `i` of a 128-byte buffer (all reads performed by the code are
in bounds; out-of-range reads return a junk 0). -/
def fget (f : Fin 128 → Nat) (i : Nat) : Nat :=
  if h : i < 128 then f ⟨i, h⟩ else 0

/-- Write byte `i` of a 128-byte buffer (all writes performed by the code
are in bounds; an out-of-range write is a no-op). -/
def fset (f : Fin 128 → Nat) (i v : Nat) : Fin 128 → Nat :=
  fun c => if c.val = i then v else f c

/-- Rust `fn rotation_func(&self, x: usize, y: usize) -> usize`, the map
from a logical `(x, y)` coordinate to the byte offset of the pixel's 8 MSB
in the frame:
```rust
match self.orientation {
    Deg0 => 2 * (x + 8 * y),
    Deg90 => 2 * ((7 - y) + 8 * x),
    Deg180 => 126 - 2 * (x + 8 * y),
    Deg270 => 2 * (y + 8 * (7 - x)),
}
```
(The code only calls it with `x, y ≤ 7`, so the `usize` subtractions never
underflow and agree with truncated `Nat` subtraction.) -/
def rotation_func (o : Orientation) (x y : Nat) : Nat :=
  match o with
  | .Deg0 => 2 * (x + 8 * y)
  | .Deg90 => 2 * ((7 - y) + 8 * x)
  | .Deg180 => 126 - 2 * (x + 8 * y)
  | .Deg270 => 2 * (y + 8 * (7 - x))

/-- The temporary rotated buffer `fn draw` builds when the orientation is
not 0°: starting from `[0; 128]`, for every `y` then `x` in `0..8` it
copies the frame bytes at `i = 2*(x + 8*y)` and `i + 1` to
`cor = rotation_func(x, y)` and `cor + 1`. -/
def drawTemp (d : Display) : Fin 128 → Nat :=
  (List.range 8).foldl
    (fun acc y =>
      (List.range 8).foldl
        (fun acc2 x =>
          let cor := rotation_func d.orientation x y
          let i := 2 * (x + 8 * y)
          fset (fset acc2 cor (fget d.frame i)) (cor + 1) (fget d.frame (i + 1)))
        acc)
    (fun _ => 0)

/-- Rust `fn draw(&mut self)`: with orientation 0° it transmits `frame`
verbatim; otherwise it builds the rotated temporary buffer and transmits
that.  Only the framebuffer (`fb`) is written; `frame` is untouched. -/
def draw (d : Display) : Display :=
  if d.orientation = .Deg0 then { d with fb := d.frame }
  else { d with fb := drawTemp d }

/-- Rust `fn set_rotation(&mut self, ori: Orientation, redraw: bool)`. -/
def set_rotation (d : Display) (ori : Orientation) (redraw : Bool) : Display :=
  let d' := { d with orientation := ori }
  if redraw then draw d' else d'

/-- Rust `fn set_pixel(&mut self, x, y, p) -> DisplayResult<()>`: bounds
check, then write `lsb` at `pos = 2*(x + 8*y)` and `msb` at `pos + 1`,
then a full `draw`. -/
def set_pixel (d : Display) (x y : Nat) (p : Pixel) :
    Except DisplayError Unit × Display :=
  if x > 7 ∨ y > 7 then (.error .OutOfBounds, d)
  else
    let pos := 2 * (x + 8 * y)
    let ml := convert_from_pixel p
    let d' := { d with frame := fset (fset d.frame pos ml.2) (pos + 1) ml.1 }
    (.ok (), draw d')

/-- Rust `fn get_pixel(&self, x, y) -> DisplayResult<Pixel>`: bounds check,
then read `lsb` at `pos = rotation_func(x, y)` and `msb` at `pos + 1` and
unpack. -/
def get_pixel (d : Display) (x y : Nat) : Except DisplayError Pixel :=
  if x > 7 ∨ y > 7 then .error .OutOfBounds
  else
    let pos := rotation_func d.orientation x y
    .ok (convert_to_pixel (fget d.frame (pos + 1)) (fget d.frame pos))

/-- Rust `fn get_pixels(&self) -> [Pixel; 64]`: pixel `idx` is unpacked
from the frame bytes at `2*idx` (lsb) and `2*idx + 1` (msb). -/
def get_pixels (d : Display) : Fin 64 → Pixel := fun idx =>
  convert_to_pixel (fget d.frame (2 * idx.val + 1)) (fget d.frame (2 * idx.val))

/-- The frame written by `fn set_pixels`: its loop stores, for each pixel
index `k`, `lsb` at byte `2*k` and `msb` at byte `2*k + 1`; so an even byte
`c` holds the lsb and an odd byte `c` the msb of pixel `c / 2`. -/
def pixelsFrame (g : Fin 64 → Pixel) : Fin 128 → Nat := fun c =>
  let ml := convert_from_pixel (g ⟨c.val / 2, by omega⟩)
  if c.val % 2 = 0 then ml.2 else ml.1

/-- Rust `fn set_pixels(&mut self, pixel_list: &[Pixel; 64])`: pack all 64
pixels into the frame, then `draw`. -/
def set_pixels (d : Display) (g : Fin 64 → Pixel) : Display :=
  draw { d with frame := pixelsFrame g }

/-- The grid permutation performed by `fn flip_h`:
`pixels[offset..offset + 8].reverse()` for each row offset `0, 8, ..., 56`;
the pixel at row-major index `i` thus comes from index
`8*(i/8) + (7 - i%8)` (same row, mirrored column). -/
def flip_h_grid (g : Fin 64 → Pixel) : Fin 64 → Pixel := fun i =>
  g ⟨8 * (i.val / 8) + (7 - i.val % 8), by omega⟩

/-- The grid permutation performed by `fn flip_v`:
`pixels.swap(i + 8*j, i + 56 - 8*j)` for `i ∈ 0..8`, `j ∈ 0..4`; the pixel
at row-major index `i` thus comes from index `8*(7 - i/8) + i%8`
(mirrored row, same column). -/
def flip_v_grid (g : Fin 64 → Pixel) : Fin 64 → Pixel := fun i =>
  g ⟨8 * (7 - i.val / 8) + i.val % 8, by omega⟩

/-- Rust `fn flip_h(&mut self, redraw: bool) -> [Pixel; 64]`: read the
grid, mirror every row, write it back via `set_pixels` when `redraw`, and
return the mirrored grid either way. -/
def flip_h (d : Display) (redraw : Bool) : (Fin 64 → Pixel) × Display :=
  let pixels := flip_h_grid (get_pixels d)
  (pixels, if redraw then set_pixels d pixels else d)

/-- Rust `fn flip_v(&mut self, redraw: bool) -> [Pixel; 64]`: read the
grid, mirror the row order, write it back via `set_pixels` when `redraw`,
and return the mirrored grid either way. -/
def flip_v (d : Display) (redraw : Bool) : (Fin 64 → Pixel) × Display :=
  let pixels := flip_v_grid (get_pixels d)
  (pixels, if redraw then set_pixels d pixels else d)

/-- The frame produced by `fn clear`: `Some(c)` packs `c` into every cell
(its loop stores `lsb` at every even byte and `msb` at every odd byte);
`None` zeroes every byte. -/
def clearFrame (color : Option Pixel) : Fin 128 → Nat :=
  match color with
  | some c =>
    let ml := convert_from_pixel c
    fun pos => if pos.val % 2 = 0 then ml.2 else ml.1
  | none => fun _ => 0

/-- Rust `fn clear(&mut self, color: Option<Pixel>)`: overwrite the whole
frame, then `write_frame(&self.frame)` directly (no rotation). -/
def clear (d : Display) (color : Option Pixel) : Display :=
  { d with frame := clearFrame color, fb := clearFrame color }

/-- Rust `fn set_gamma(&mut self, buffer: &[u8; 32]) -> DisplayResult<()>`:
reject the table with `InvalidGamma` unless every entry is `<= 31`
(returning before any device call); otherwise issue the set-gamma ioctl
(modelled as replacing the device-held table) and return `Ok`. -/
def set_gamma (d : Display) (buffer : Fin 32 → Nat) :
    Except DisplayError Unit × Display :=
  if ¬ (∀ i, buffer i ≤ 31) then (.error .InvalidGamma, d)
  else (.ok (), { d with gammaState := buffer })

/-- A concrete display state (blank frame, blank device state) at a given
orientation, used to instantiate universally quantified theorems. -/
def displayAt (o : Orientation) : Display :=
  { frame := fun _ => 0, orientation := o, fb := fun _ => 0,
    gammaState := fun _ => 0 }

/-! ### Arithmetic helper lemmas for the codec -/

theorem or_twoPow {i b : Nat} (hb : b < 2 ^ i) (a : Nat) :
    (2 ^ i * a) ||| b = 2 ^ i * a + b :=
  (Nat.mul_add_lt_is_or hb a).symm

theorem or_mul8 (a b : Nat) (hb : b < 8) : (8 * a) ||| b = 8 * a + b := by
  have h := or_twoPow (i := 3) (b := b) (by norm_num [hb]) a
  norm_num at h
  exact h

theorem or_mul32 (a b : Nat) (hb : b < 32) : (32 * a) ||| b = 32 * a + b := by
  have h := or_twoPow (i := 5) (b := b) (by norm_num [hb]) a
  norm_num at h
  exact h

theorem or_mul2048 (a b : Nat) (hb : b < 2048) : (2048 * a) ||| b = 2048 * a + b := by
  have h := or_twoPow (i := 11) (b := b) (by norm_num [hb]) a
  norm_num at h
  exact h

set_option maxRecDepth 10000 in
theorem and_248 : ∀ x < 256, x &&& 0xF8 = 8 * (x / 8) := by decide!

set_option maxRecDepth 10000 in
theorem and_224 : ∀ x < 256, x &&& 0xE0 = 32 * (x / 32) := by decide!

theorem and_7 (x : Nat) : x &&& 0x07 = x % 8 := by
  have h := Nat.and_pow_two_sub_one_eq_mod x 3
  norm_num at h
  exact h

theorem and_31 (x : Nat) : x &&& 0x1F = x % 32 := by
  have h := Nat.and_pow_two_sub_one_eq_mod x 5
  norm_num at h
  exact h

theorem and_255 (x : Nat) : x &&& 0xFF = x % 256 := by
  have h := Nat.and_pow_two_sub_one_eq_mod x 8
  norm_num at h
  exact h

/-- Arithmetic form of `convert_from_pixel` on in-range channels. -/
theorem from_eq : ∀ r < 256, ∀ g < 256, ∀ b < 256,
    convert_from_pixel (r, g, b) = (8 * (r / 8) + g / 32, 32 * (g / 4 % 8) + b / 8) := by
  intro r hr g hg b hb
  show (r &&& 0xF8 ||| (r, g, b).2.1 >>> 2 >>> 3,
      ((r, g, b).2.1 >>> 2 <<< 5) % 256 ||| b >>> 3) = _
  have h1 : g >>> 2 >>> 3 = g / 32 := by
    simp [Nat.shiftRight_eq_div_pow]
    omega
  have h2 : (g >>> 2 <<< 5) % 256 = 32 * (g / 4 % 8) := by
    simp [Nat.shiftRight_eq_div_pow, Nat.shiftLeft_eq]
    omega
  have h3 : b >>> 3 = b / 8 := by
    simp [Nat.shiftRight_eq_div_pow]
  simp only [h1, h2, h3, and_248 r hr]
  rw [or_mul8 (r / 8) (g / 32) (by omega), or_mul32 (g / 4 % 8) (b / 8) (by omega)]

/-- Arithmetic form of `convert_to_pixel` on in-range bytes. -/
theorem to_eq : ∀ m < 256, ∀ l < 256,
    convert_to_pixel m l = (8 * (m / 8), gchan (m % 8) (l / 32), 8 * (l % 32)) := by
  intro m hm l hl
  show (m &&& 0xF8, (((m &&& 0x07) <<< 3 ||| l &&& 0xE0) <<< 2) % 256,
      (l &&& 0x1F) <<< 3) = _
  have h1 : l &&& 0xE0 = (l / 32) <<< 5 := by
    rw [and_224 l hl, Nat.shiftLeft_eq]
    norm_num
    omega
  have h2 : (l &&& 0x1F) <<< 3 = 8 * (l % 32) := by
    rw [and_31 l, Nat.shiftLeft_eq]
    norm_num
    omega
  simp only [and_248 m hm, and_7 m, h1, h2, gchan]

theorem gchan_lt (c d : Nat) : gchan c d < 256 :=
  Nat.mod_lt _ (by norm_num)

set_option maxRecDepth 10000 in
theorem gchan_fix : ∀ c < 8, ∀ d < 8,
    gchan (gchan c d / 32) (gchan c d / 4 % 8) = gchan c d := by decide!

/-- Channel-wise arithmetic form of the codec round trip. -/
theorem roundtrip_eq : ∀ r < 256, ∀ g < 256, ∀ b < 256,
    roundtrip (r, g, b) = (8 * (r / 8), gchan (g / 32) (g / 4 % 8), 8 * (b / 8)) := by
  intro r hr g hg b hb
  show convert_to_pixel (convert_from_pixel (r, g, b)).1 (convert_from_pixel (r, g, b)).2 = _
  rw [from_eq r hr g hg b hb]
  show convert_to_pixel (8 * (r / 8) + g / 32) (32 * (g / 4 % 8) + b / 8) = _
  rw [to_eq _ (by omega) _ (by omega)]
  have h1 : (8 * (r / 8) + g / 32) / 8 = r / 8 := by omega
  have h2 : (8 * (r / 8) + g / 32) % 8 = g / 32 := by omega
  have h3 : (32 * (g / 4 % 8) + b / 8) / 32 = g / 4 % 8 := by omega
  have h4 : (32 * (g / 4 % 8) + b / 8) % 32 = b / 8 := by omega
  rw [h1, h2, h3, h4]

/-- The codec round trip is the identity on anything `convert_to_pixel`
produces from in-range bytes. -/
theorem roundtrip_to (m l : Nat) (hm : m < 256) (hl : l < 256) :
    roundtrip (convert_to_pixel m l) = convert_to_pixel m l := by
  rw [to_eq m hm l hl]
  rw [roundtrip_eq _ (by omega) _ (gchan_lt _ _) _ (by omega)]
  have h1 : 8 * (m / 8) / 8 = m / 8 := by omega
  have h3 : 8 * (l % 32) / 8 = l % 32 := by omega
  rw [h1, h3, gchan_fix (m % 8) (by omega) (l / 32) (by omega)]

/-- Arithmetic form of the spec's `Pack` word. -/
theorem packWord_eq : ∀ r < 256, ∀ g < 256, ∀ b < 256,
    packWord (r, g, b) = 2048 * (r / 8) + 32 * (g / 4) + b / 8 := by
  intro r hr g hg b hb
  show (r >>> 3) <<< 11 ||| (g >>> 2) <<< 5 ||| b >>> 3 = _
  have h1 : (r >>> 3) <<< 11 = 2048 * (r / 8) := by
    simp [Nat.shiftRight_eq_div_pow, Nat.shiftLeft_eq]
    try ring
  have h2 : (g >>> 2) <<< 5 = 32 * (g / 4) := by
    simp [Nat.shiftRight_eq_div_pow, Nat.shiftLeft_eq]
    try ring
  have h3 : b >>> 3 = b / 8 := by
    simp [Nat.shiftRight_eq_div_pow]
  rw [h1, h2, h3, or_mul2048 (r / 8) (32 * (g / 4)) (by omega)]
  have h4 : 2048 * (r / 8) + 32 * (g / 4) = 32 * (64 * (r / 8) + g / 4) := by ring
  rw [h4, or_mul32 _ _ (by omega)]
  try ring

/-! ### Helper lemmas about the display state -/

theorem draw_frame (d : Display) : (draw d).frame = d.frame := by
  by_cases h : d.orientation = Orientation.Deg0 <;> simp [draw, h]

theorem draw_orientation (d : Display) : (draw d).orientation = d.orientation := by
  by_cases h : d.orientation = Orientation.Deg0 <;> simp [draw, h]

theorem fget_lt (f : Fin 128 → Nat) (h : ∀ c, f c < 256) (i : Nat) :
    fget f i < 256 := by
  unfold fget
  split
  · exact h _
  · omega

theorem fget_fset_self (f : Fin 128 → Nat) (i v : Nat) (h : i < 128) :
    fget (fset f i v) i = v := by
  simp [fget, fset, h]

theorem fget_fset_ne (f : Fin 128 → Nat) (i v j : Nat) (h : j ≠ i) :
    fget (fset f i v) j = fget f j := by
  simp only [fget, fset]
  split
  · simp [h]
  · rfl

/-- `get_pixels` after `set_pixels` is the written grid pushed through the
codec round trip. -/
theorem get_pixels_set_pixels (d : Display) (g : Fin 64 → Pixel) :
    get_pixels (set_pixels d g) = fun i => roundtrip (g i) := by
  funext i
  show convert_to_pixel
      (fget (draw _).frame (2 * i.val + 1)) (fget (draw _).frame (2 * i.val)) = _
  rw [draw_frame]
  have h1 : 2 * i.val + 1 < 128 := by omega
  have h2 : 2 * i.val < 128 := by omega
  show convert_to_pixel
      (fget (pixelsFrame g) (2 * i.val + 1)) (fget (pixelsFrame g) (2 * i.val)) = _
  rw [fget, fget]
  simp only [h1, h2, dif_pos]
  show convert_to_pixel
      (if (2 * i.val + 1) % 2 = 0 then _ else (convert_from_pixel (g ⟨(2 * i.val + 1) / 2, _⟩)).1)
      (if 2 * i.val % 2 = 0 then (convert_from_pixel (g ⟨2 * i.val / 2, _⟩)).2 else _) = _
  have e1 : (2 * i.val + 1) % 2 ≠ 0 := by omega
  have e2 : 2 * i.val % 2 = 0 := by omega
  rw [if_neg e1, if_pos e2]
  have e3 : (⟨(2 * i.val + 1) / 2, by omega⟩ : Fin 64) = i := by
    apply Fin.ext
    show (2 * i.val + 1) / 2 = i.val
    omega
  have e4 : (⟨2 * i.val / 2, by omega⟩ : Fin 64) = i := by
    apply Fin.ext
    show 2 * i.val / 2 = i.val
    omega
  rw [e3, e4]
  rfl

/-- The round trip fixes every pixel read out of a byte-valued frame. -/
theorem roundtrip_get_pixels (d : Display) (h : ∀ c, d.frame c < 256) (i : Fin 64) :
    roundtrip (get_pixels d i) = get_pixels d i :=
  roundtrip_to _ _ (fget_lt _ h _) (fget_lt _ h _)

theorem flip_h_grid_invol (g : Fin 64 → Pixel) :
    flip_h_grid (flip_h_grid g) = g := by
  funext i
  show g ⟨_, _⟩ = g i
  congr 1
  apply Fin.ext
  show 8 * ((8 * (i.val / 8) + (7 - i.val % 8)) / 8) +
      (7 - (8 * (i.val / 8) + (7 - i.val % 8)) % 8) = i.val
  omega

theorem flip_v_grid_invol (g : Fin 64 → Pixel) :
    flip_v_grid (flip_v_grid g) = g := by
  funext i
  show g ⟨_, _⟩ = g i
  congr 1
  apply Fin.ext
  show 8 * (7 - (8 * (7 - i.val / 8) + i.val % 8) / 8) +
      (8 * (7 - i.val / 8) + i.val % 8) % 8 = i.val
  omega

theorem flip_h_grid_map (t : Pixel → Pixel) (g : Fin 64 → Pixel) :
    flip_h_grid (fun i => t (g i)) = fun i => t (flip_h_grid g i) := rfl

theorem flip_v_grid_map (t : Pixel → Pixel) (g : Fin 64 → Pixel) :
    flip_v_grid (fun i => t (g i)) = fun i => t (flip_v_grid g i) := rfl

theorem fget_clearFrame_even (c : Pixel) (n : Nat) (h1 : n < 128)
    (h2 : n % 2 = 0) : fget (clearFrame (some c)) n = (convert_from_pixel c).2 := by
  simp [fget, clearFrame, h1, h2]

theorem fget_clearFrame_odd (c : Pixel) (n : Nat) (h1 : n < 128)
    (h2 : n % 2 = 1) : fget (clearFrame (some c)) n = (convert_from_pixel c).1 := by
  simp [fget, clearFrame, h1, h2]

/-- Reading `(3,3)` after a `clear` to colour `c`: every orientation maps
`(3,3)` to an even byte offset, whose byte holds the packed lsb and whose
successor holds the packed msb. -/
theorem get_pixel_clear33 (f fb : Fin 128 → Nat) (gs : Fin 32 → Nat)
    (o : Orientation) (c : Pixel) :
    get_pixel (clear ⟨f, o, fb, gs⟩ (some c)) 3 3 =
      .ok (convert_to_pixel (convert_from_pixel c).1 (convert_from_pixel c).2) := by
  cases o with
  | Deg0 =>
    have e : get_pixel (clear ⟨f, Orientation.Deg0, fb, gs⟩ (some c)) 3 3 =
        .ok (convert_to_pixel (fget (clearFrame (some c)) 55)
          (fget (clearFrame (some c)) 54)) := rfl
    rw [e, fget_clearFrame_even c 54 (by norm_num) (by norm_num),
      fget_clearFrame_odd c 55 (by norm_num) (by norm_num)]
  | Deg90 =>
    have e : get_pixel (clear ⟨f, Orientation.Deg90, fb, gs⟩ (some c)) 3 3 =
        .ok (convert_to_pixel (fget (clearFrame (some c)) 57)
          (fget (clearFrame (some c)) 56)) := rfl
    rw [e, fget_clearFrame_even c 56 (by norm_num) (by norm_num),
      fget_clearFrame_odd c 57 (by norm_num) (by norm_num)]
  | Deg180 =>
    have e : get_pixel (clear ⟨f, Orientation.Deg180, fb, gs⟩ (some c)) 3 3 =
        .ok (convert_to_pixel (fget (clearFrame (some c)) 73)
          (fget (clearFrame (some c)) 72)) := rfl
    rw [e, fget_clearFrame_even c 72 (by norm_num) (by norm_num),
      fget_clearFrame_odd c 73 (by norm_num) (by norm_num)]
  | Deg270 =>
    have e : get_pixel (clear ⟨f, Orientation.Deg270, fb, gs⟩ (some c)) 3 3 =
        .ok (convert_to_pixel (fget (clearFrame (some c)) 71)
          (fget (clearFrame (some c)) 70)) := rfl
    rw [e, fget_clearFrame_even c 70 (by norm_num) (by norm_num),
      fget_clearFrame_odd c 71 (by norm_num) (by norm_num)]

/-! ### The claims -/

/-- C1: for every 24-bit pixel `(r,g,b)` the packer returns exactly the
`(msb, lsb)` byte pair of the 16-bit word
`(r >> 3) << 11 | (g >> 2) << 5 | (b >> 3)`, and for every 16-bit word the
unpacker computes the spec's `Unpack` channel formulas, each channel an
8-bit value. -/
theorem codec_matches_spec :
    ∀ r < 256, ∀ g < 256, ∀ b < 256, ∀ msb < 256, ∀ lsb < 256,
      (convert_from_pixel (r, g, b) =
        (packWord (r, g, b) >>> 8, packWord (r, g, b) &&& 0xFF)) ∧
      (convert_to_pixel msb lsb = specUnpack msb lsb) ∧
      ((convert_to_pixel msb lsb).1 < 256 ∧ (convert_to_pixel msb lsb).2.1 < 256 ∧
        (convert_to_pixel msb lsb).2.2 < 256) := by
  intro r hr g hg b hb msb hm lsb hl
  refine ⟨?_, rfl, ?_⟩
  · rw [from_eq r hr g hg b hb]
    have hsr : packWord (r, g, b) >>> 8 = packWord (r, g, b) / 256 := by
      simp [Nat.shiftRight_eq_div_pow]
    rw [hsr, and_255, packWord_eq r hr g hg b hb]
    simp only [Prod.mk.injEq]
    constructor
    · omega
    · omega
  · rw [to_eq msb hm lsb hl]
    refine ⟨?_, ?_, ?_⟩
    · show 8 * (msb / 8) < 256
      omega
    · show gchan (msb % 8) (lsb / 32) < 256
      exact gchan_lt _ _
    · show 8 * (lsb % 32) < 256
      omega

/-- C1 witness: the codec/spec agreement instantiated at the concrete
pixel `(250,100,9)` and the concrete word bytes `(17,209)`. -/
theorem codec_matches_spec_witness :
    (convert_from_pixel (250, 100, 9) =
        (packWord (250, 100, 9) >>> 8, packWord (250, 100, 9) &&& 0xFF)) ∧
      (convert_to_pixel 17 209 = specUnpack 17 209) ∧
      ((convert_to_pixel 17 209).1 < 256 ∧ (convert_to_pixel 17 209).2.1 < 256 ∧
        (convert_to_pixel 17 209).2.2 < 256) :=
  codec_matches_spec 250 (by norm_num) 100 (by norm_num) 9 (by norm_num)
    17 (by norm_num) 209 (by norm_num)

/-- C2: `Unpack(Pack(·))` is idempotent on 8-bit-channel pixels, and it is
not the identity (witnessed by `(255,255,255)`, which it sends to
`(248,224,248)`). -/
theorem roundtrip_idempotent_not_identity :
    (∀ r < 256, ∀ g < 256, ∀ b < 256,
      roundtrip (roundtrip (r, g, b)) = roundtrip (r, g, b)) ∧
    ∃ p : Pixel, p.1 < 256 ∧ p.2.1 < 256 ∧ p.2.2 < 256 ∧ roundtrip p ≠ p := by
  constructor
  · intro r hr g hg b hb
    rw [roundtrip_eq r hr g hg b hb,
      roundtrip_eq _ (by omega) _ (gchan_lt _ _) _ (by omega)]
    have h1 : 8 * (r / 8) / 8 = r / 8 := by omega
    have h3 : 8 * (b / 8) / 8 = b / 8 := by omega
    rw [h1, h3, gchan_fix (g / 32) (by omega) (g / 4 % 8) (by omega)]
  · exact ⟨(255, 255, 255), by norm_num, by norm_num, by norm_num, by decide⟩

/-- C2 witness: idempotence instantiated at the pixel `(255,255,255)`. -/
theorem roundtrip_idempotent_witness :
    roundtrip (roundtrip (255, 255, 255)) = roundtrip (255, 255, 255) :=
  roundtrip_idempotent_not_identity.1 255 (by norm_num) 255 (by norm_num)
    255 (by norm_num)

/-- C3: for every orientation, `rotation_func` restricted to
`x, y ∈ [0,7]` is a bijection onto the 64 even byte offsets
`{2*i : i < 64} = {0, 2, ..., 126}`. -/
theorem rotation_func_bijection :
    ∀ o : Orientation,
      (∀ x1 < 8, ∀ y1 < 8, ∀ x2 < 8, ∀ y2 < 8,
        rotation_func o x1 y1 = rotation_func o x2 y2 → x1 = x2 ∧ y1 = y2) ∧
      (∀ x < 8, ∀ y < 8, ∃ i < 64, rotation_func o x y = 2 * i) ∧
      (∀ i < 64, ∃ x < 8, ∃ y < 8, rotation_func o x y = 2 * i) := by
  intro o
  refine ⟨?_, ?_, ?_⟩
  · intro x1 h1 y1 h2 x2 h3 y2 h4 heq
    cases o <;> simp only [rotation_func] at heq <;> exact ⟨by omega, by omega⟩
  · cases o <;> decide!
  · cases o <;> decide!

/-- C3 witness: at orientation 90° the byte offset `2 * 17` is hit by
some in-range coordinate. -/
theorem rotation_func_bijection_witness :
    ∃ x < 8, ∃ y < 8, rotation_func Orientation.Deg90 x y = 2 * 17 :=
  (rotation_func_bijection Orientation.Deg90).2.2 17 (by norm_num)

/-- C4 counterexample: at orientation 90°, `set_pixel(0,0,(255,255,255))`
succeeds but the subsequent `get_pixel(0,7)` does not return
`(255,255,255)` (the codec quantizes it to `(248,224,248)`). -/
theorem set_get_rot90_counterexample :
    (set_pixel (displayAt Orientation.Deg90) 0 0 (255, 255, 255)).1 = .ok () ∧
    get_pixel (set_pixel (displayAt Orientation.Deg90) 0 0 (255, 255, 255)).2 0 7 ≠
      .ok ((255, 255, 255) : Pixel) := by
  refine ⟨rfl, ?_⟩
  intro hc
  have h2 : (set_pixel (displayAt Orientation.Deg90) 0 0 (255, 255, 255)).2 =
      draw ⟨fset (fset (fun _ => 0) 0 255) 1 255, Orientation.Deg90,
        (fun _ => 0), (fun _ => 0)⟩ := rfl
  have h3 : get_pixel (draw ⟨fset (fset (fun _ => (0 : Nat)) 0 255) 1 255,
      Orientation.Deg90, (fun _ => (0 : Nat)), (fun _ => (0 : Nat))⟩) 0 7 =
      .ok (convert_to_pixel (fget (fset (fset (fun _ => 0) 0 255) 1 255) 1)
        (fget (fset (fset (fun _ => 0) 0 255) 1 255) 0)) := rfl
  rw [h2, h3, fget_fset_self _ 1 255 (by norm_num),
    fget_fset_ne _ 1 255 0 (by norm_num), fget_fset_self _ 0 255 (by norm_num)] at hc
  exact absurd (Except.ok.inj hc) (by decide)

/-- C4 amended: at orientation 90°, after `set_pixel(0,0,(255,255,255))`
succeeds, `get_pixel(0,7)` returns `Ok((248,224,248))` — the same stored
cell, read back through the codec. -/
theorem set_get_rot90_amended :
    ∀ d : Display, d.orientation = Orientation.Deg90 →
      (set_pixel d 0 0 (255, 255, 255)).1 = .ok () ∧
      get_pixel (set_pixel d 0 0 (255, 255, 255)).2 0 7 =
        .ok ((248, 224, 248) : Pixel) := by
  intro d h
  rcases d with ⟨f, o, fb, gs⟩
  obtain rfl : o = Orientation.Deg90 := h
  refine ⟨rfl, ?_⟩
  have h1 : (set_pixel ⟨f, Orientation.Deg90, fb, gs⟩ 0 0 (255, 255, 255)).2 =
      draw ⟨fset (fset f 0 255) 1 255, Orientation.Deg90, fb, gs⟩ := rfl
  have h2 : get_pixel (draw ⟨fset (fset f 0 255) 1 255, Orientation.Deg90, fb, gs⟩)
      0 7 =
      .ok (convert_to_pixel (fget (fset (fset f 0 255) 1 255) 1)
        (fget (fset (fset f 0 255) 1 255) 0)) := rfl
  rw [h1, h2, fget_fset_self _ 1 255 (by norm_num),
    fget_fset_ne _ 1 255 0 (by norm_num), fget_fset_self _ 0 255 (by norm_num)]
  rfl

/-- C4 witness: the amended claim instantiated at a blank display at 90°. -/
theorem set_get_rot90_amended_witness :
    (set_pixel (displayAt Orientation.Deg90) 0 0 (255, 255, 255)).1 = .ok () ∧
    get_pixel (set_pixel (displayAt Orientation.Deg90) 0 0 (255, 255, 255)).2 0 7 =
      .ok ((248, 224, 248) : Pixel) :=
  set_get_rot90_amended (displayAt Orientation.Deg90) rfl

/-- C5 counterexample: after `clear(Some((255,0,0)))`, `get_pixel(3,3)`
does not return `(248,0,248)` (the blue channel of the cleared colour is
0, so it reads back as 0, not 248). -/
theorem clear_red_counterexample :
    get_pixel (clear (displayAt Orientation.Deg0) (some (255, 0, 0))) 3 3 ≠
      .ok ((248, 0, 248) : Pixel) := by
  intro hc
  simp only [displayAt] at hc
  rw [get_pixel_clear33] at hc
  rw [show convert_to_pixel (convert_from_pixel (255, 0, 0)).1
      (convert_from_pixel (255, 0, 0)).2 = ((248, 0, 0) : Pixel) from rfl] at hc
  exact absurd (Except.ok.inj hc) (by decide)

/-- C5 amended: for every prior display state and orientation, after
`clear(Some((255,0,0)))` the read `get_pixel(3,3)` returns
`Ok((248,0,0))` = `Unpack(Pack((255,0,0)))`. -/
theorem clear_red_amended :
    ∀ d : Display, get_pixel (clear d (some (255, 0, 0))) 3 3 =
      .ok ((248, 0, 0) : Pixel) := by
  intro d
  rcases d with ⟨f, o, fb, gs⟩
  rw [get_pixel_clear33]
  rw [show convert_to_pixel (convert_from_pixel (255, 0, 0)).1
      (convert_from_pixel (255, 0, 0)).2 = ((248, 0, 0) : Pixel) from rfl]

/-- C6: `draw` never modifies the 128-byte frame or the orientation, and
the redraw performed by `set_rotation(o, true)` leaves the frame bytes
exactly as they were — rotation only shapes the transmitted buffer. -/
theorem draw_preserves_frame :
    ∀ (d : Display) (o : Orientation),
      (draw d).frame = d.frame ∧ (draw d).orientation = d.orientation ∧
      (set_rotation d o true).frame = d.frame := by
  intro d o
  refine ⟨draw_frame d, draw_orientation d, ?_⟩
  show (draw { d with orientation := o }).frame = d.frame
  rw [draw_frame]

/-- C7: `set_gamma` fails with `InvalidGamma` exactly when some entry of
the table exceeds 31; on failure the whole state — in particular the
device gamma table — is untouched (the code returns before the ioctl), and
on success it returns `Ok` having installed the table on the device. -/
theorem set_gamma_spec :
    ∀ (d : Display) (buffer : Fin 32 → Nat),
      ((set_gamma d buffer).1 = .error .InvalidGamma ↔ ∃ i, buffer i > 31) ∧
      ((∃ i, buffer i > 31) → (set_gamma d buffer).2 = d) ∧
      ((∀ i, buffer i ≤ 31) →
        (set_gamma d buffer).1 = .ok () ∧
        (set_gamma d buffer).2 = { d with gammaState := buffer }) := by
  intro d buffer
  by_cases h : ∀ i, buffer i ≤ 31
  · have h2 : ¬ ∃ i, buffer i > 31 := by push_neg; exact h
    have e : set_gamma d buffer = (.ok (), { d with gammaState := buffer }) := by
      unfold set_gamma
      rw [if_neg (not_not_intro h)]
    rw [e]
    refine ⟨by simp [h2], fun hex => absurd hex h2, fun _ => ⟨rfl, rfl⟩⟩
  · have h2 : ∃ i, buffer i > 31 := by push_neg at h; exact h
    have e : set_gamma d buffer = (.error .InvalidGamma, d) := by
      unfold set_gamma
      rw [if_pos h]
    rw [e]
    refine ⟨by simp [h2], fun _ => rfl, fun hall => absurd hall h⟩

/-- C7 witness: an all-32 table is rejected and leaves the state of a
blank display unchanged. -/
theorem set_gamma_spec_witness :
    (set_gamma (displayAt Orientation.Deg0) (fun _ => 32)).2 =
      displayAt Orientation.Deg0 :=
  (set_gamma_spec (displayAt Orientation.Deg0) (fun _ => 32)).2.1
    ⟨0, by norm_num⟩

/-- C8: `set_pixel` and `get_pixel` return `OutOfBounds` exactly when
`x > 7` or `y > 7`, and an out-of-bounds `set_pixel` returns the state
completely unchanged (no frame write, no device write). -/
theorem pixel_bounds :
    ∀ (d : Display) (x y : Nat) (p : Pixel),
      ((set_pixel d x y p).1 = .error .OutOfBounds ↔ x > 7 ∨ y > 7) ∧
      ((x > 7 ∨ y > 7) → (set_pixel d x y p).2 = d) ∧
      (get_pixel d x y = .error .OutOfBounds ↔ x > 7 ∨ y > 7) := by
  intro d x y p
  by_cases h : x > 7 ∨ y > 7 <;>
    refine ⟨?_, ?_, ?_⟩ <;>
    simp [set_pixel, get_pixel, h]

/-- C8 witness: `set_pixel` at `x = 8` leaves a blank display unchanged. -/
theorem pixel_bounds_witness :
    (set_pixel (displayAt Orientation.Deg0) 8 0 ((0, 0, 0) : Pixel)).2 =
      displayAt Orientation.Deg0 :=
  (pixel_bounds (displayAt Orientation.Deg0) 8 0 ((0, 0, 0) : Pixel)).2.1
    (Or.inl (by norm_num))

/-- C9: with `redraw = true`, applying `flip_h` twice returns (on the
second call) the grid `get_pixels` gave before the first call, and leaves
the stored grid reading back as that same grid; likewise for `flip_v`. -/
theorem flip_involution :
    ∀ d : Display, (∀ c, d.frame c < 256) →
      ((flip_h (flip_h d true).2 true).1 = get_pixels d ∧
        get_pixels (flip_h (flip_h d true).2 true).2 = get_pixels d) ∧
      ((flip_v (flip_v d true).2 true).1 = get_pixels d ∧
        get_pixels (flip_v (flip_v d true).2 true).2 = get_pixels d) := by
  intro d h
  have hrt : (fun i => roundtrip (get_pixels d i)) = get_pixels d :=
    funext (roundtrip_get_pixels d h)
  constructor
  · have e1 : (flip_h (flip_h d true).2 true).1 = get_pixels d := by
      show flip_h_grid (get_pixels (set_pixels d (flip_h_grid (get_pixels d)))) =
        get_pixels d
      rw [get_pixels_set_pixels, flip_h_grid_map, flip_h_grid_invol, hrt]
    refine ⟨e1, ?_⟩
    show get_pixels (set_pixels (set_pixels d (flip_h_grid (get_pixels d)))
        (flip_h_grid (get_pixels (set_pixels d (flip_h_grid (get_pixels d)))))) =
      get_pixels d
    rw [get_pixels_set_pixels, get_pixels_set_pixels, flip_h_grid_map,
      flip_h_grid_invol, hrt, hrt]
  · have e1 : (flip_v (flip_v d true).2 true).1 = get_pixels d := by
      show flip_v_grid (get_pixels (set_pixels d (flip_v_grid (get_pixels d)))) =
        get_pixels d
      rw [get_pixels_set_pixels, flip_v_grid_map, flip_v_grid_invol, hrt]
    refine ⟨e1, ?_⟩
    show get_pixels (set_pixels (set_pixels d (flip_v_grid (get_pixels d)))
        (flip_v_grid (get_pixels (set_pixels d (flip_v_grid (get_pixels d)))))) =
      get_pixels d
    rw [get_pixels_set_pixels, get_pixels_set_pixels, flip_v_grid_map,
      flip_v_grid_invol, hrt, hrt]

/-- C9 witness: the double-flip identities at a blank display. -/
theorem flip_involution_witness :
    ((flip_h (flip_h (displayAt Orientation.Deg0) true).2 true).1 =
        get_pixels (displayAt Orientation.Deg0) ∧
      get_pixels (flip_h (flip_h (displayAt Orientation.Deg0) true).2 true).2 =
        get_pixels (displayAt Orientation.Deg0)) ∧
    ((flip_v (flip_v (displayAt Orientation.Deg0) true).2 true).1 =
        get_pixels (displayAt Orientation.Deg0) ∧
      get_pixels (flip_v (flip_v (displayAt Orientation.Deg0) true).2 true).2 =
        get_pixels (displayAt Orientation.Deg0)) :=
  flip_involution (displayAt Orientation.Deg0)
    (fun _ => by norm_num [displayAt])

/-- C10: an in-bounds `set_pixel(x, y, p)` succeeds and modifies exactly
the two frame bytes at `2*(x + 8*y)` (lsb) and `2*(x + 8*y) + 1` (msb);
every other frame byte and the orientation are unchanged. -/
theorem set_pixel_effect :
    ∀ (d : Display) (x y : Nat) (p : Pixel), x ≤ 7 → y ≤ 7 →
      (set_pixel d x y p).1 = .ok () ∧
      (set_pixel d x y p).2.orientation = d.orientation ∧
      fget (set_pixel d x y p).2.frame (2 * (x + 8 * y)) =
        (convert_from_pixel p).2 ∧
      fget (set_pixel d x y p).2.frame (2 * (x + 8 * y) + 1) =
        (convert_from_pixel p).1 ∧
      ∀ c : Fin 128, c.val ≠ 2 * (x + 8 * y) → c.val ≠ 2 * (x + 8 * y) + 1 →
        (set_pixel d x y p).2.frame c = d.frame c := by
  intro d x y p hx hy
  have hnb : ¬ (x > 7 ∨ y > 7) := by omega
  have e : set_pixel d x y p =
      (.ok (), draw { d with frame :=
        (fset (fset d.frame (2 * (x + 8 * y)) (convert_from_pixel p).2)
          (2 * (x + 8 * y) + 1) (convert_from_pixel p).1) }) := by
    unfold set_pixel
    rw [if_neg hnb]
  rw [e]
  refine ⟨rfl, ?_, ?_, ?_, ?_⟩
  · rw [draw_orientation]
  · rw [draw_frame, fget_fset_ne _ _ _ _ (by omega),
      fget_fset_self _ _ _ (by omega)]
  · rw [draw_frame, fget_fset_self _ _ _ (by omega)]
  · intro c hc1 hc2
    rw [draw_frame]
    show fset (fset d.frame _ _) _ _ c = d.frame c
    simp [fset, hc1, hc2]

/-- C10 witness: the single-pixel frame effect at `(2,3)` on a blank
display. -/
theorem set_pixel_effect_witness :
    (set_pixel (displayAt Orientation.Deg0) 2 3 ((9, 9, 9) : Pixel)).1 = .ok () :=
  (set_pixel_effect (displayAt Orientation.Deg0) 2 3 ((9, 9, 9) : Pixel)
    (by norm_num) (by norm_num)).1

end SenseHat
